import Mathlib

/-!
Verification of `house_prediction/house_price.py`, a linear-regression
script: path resolution for the dataset file, feature/target column
splitting, the seeded train/test partition, ordinary-least-squares
fitting, and the mean-squared-error metric.

Numeric data is modelled over `ℚ` (the script's arithmetic is exact on
the rationals it manipulates up to floating-point rounding, which none
of the verified properties depend on).
-/

namespace HousePrice

/-! ## Path resolution (`find_csv_path`, house_price.py lines 11-41) -/

/-- The filesystem/process environment visible to `find_csv_path`:
the directory containing the script (`Path(__file__).resolve().parent`),
the current working directory (`Path.cwd()`), and an existence predicate
for paths (`Path.exists`). Paths are modelled as strings. -/
structure Env where
  scriptDir : String
  cwd : String
  pathExists : String → Bool

/-- `Path` join (`dir / name`). -/
def joinPath (d f : String) : String := d ++ "/" ++ f

/-- `Path.is_absolute` on POSIX. -/
def isAbsolute (p : String) : Bool := p.startsWith "/"

/-- First fallback candidate: `script_dir / 'housing.csv'` (line 30). -/
def script_candidate (env : Env) : String := joinPath env.scriptDir "housing.csv"

/-- Second fallback candidate: `Path.cwd() / 'housing.csv'` (line 30). -/
def cwd_candidate (env : Env) : String := joinPath env.cwd "housing.csv"

/-- A supplied candidate path, resolved against the current working
directory when it is relative (lines 22-25). -/
def resolved_candidate (env : Env) (s : String) : String :=
  if isAbsolute s then s else joinPath env.cwd s

/-- The `FileNotFoundError` message (lines 35-41): it lists the two
fallback locations and an example invocation. -/
def not_found_message (env : Env) : String :=
  "Could not find 'housing.csv'. Searched the following locations:\n" ++
  " - next to the script: " ++ script_candidate env ++ "\n" ++
  " - current working directory: " ++ cwd_candidate env ++ "\n" ++
  "Provide the full path as the first argument when running the script, e.g.:\n" ++
  "  python house_price.py C:\\path\\to\\housing.csv"

/-- `find_csv_path` (lines 11-41).  `arg_path = some s` with `s ≠ ""`
models a truthy CLI argument (`if arg_path:` is false for the empty
string).  If the resolved candidate exists it is returned immediately;
otherwise the two fallback candidates are probed in order and the
error is raised when none exists. -/
def find_csv_path (env : Env) (arg_path : Option String) : Except String String :=
  let fallback :=
    if env.pathExists (script_candidate env) then Except.ok (script_candidate env)
    else if env.pathExists (cwd_candidate env) then Except.ok (cwd_candidate env)
    else Except.error (not_found_message env)
  match arg_path with
  | none => fallback
  | some s =>
    if s ≠ "" then
      let p := resolved_candidate env s
      if env.pathExists p then Except.ok p else fallback
    else fallback

/-- `sys.argv[1] if len(sys.argv) > 1 else None` (line 46). -/
def programArg (argv : List String) : Option String := argv[1]?

/-! ## Seeded shuffling and the train/test partition
(`train_test_split(X, y, test_size=0.2, random_state=42)`, line 64).

`sklearn.model_selection.train_test_split` draws a pseudo-random
permutation of the row indices from a generator seeded with
`random_state`, takes the first `n_test = ceil(test_size * n_samples)`
indices as the test set and the remaining `n - n_test` as the training
set.  The generator is modelled by a linear congruential generator;
every property proved below uses only the contract the real generator
shares: it is a deterministic function of the seed and produces a
permutation of `[0, n)`. -/

/-- One step of the modelled pseudo-random generator (32-bit LCG). -/
def nextRand (s : ℕ) : ℕ := (s * 1664525 + 1013904223) % 4294967296

/-- Selection shuffle driven by the generator state `s`: repeatedly
draw a pseudo-random element of the remaining list.  `fuel` bounds the
recursion; it is instantiated with the list length. -/
def drawAll : ℕ → ℕ → List ℕ → List ℕ
  | 0, _, _ => []
  | _ + 1, _, [] => []
  | fuel + 1, s, x :: xs =>
    let l := x :: xs
    let s' := nextRand s
    let a := l.getD (s' % l.length) 0
    a :: drawAll fuel s' (l.erase a)

/-- The seeded pseudo-random permutation of `[0, n)` used by the
partitioner (models `numpy.random.RandomState(seed).permutation(n)`). -/
def permutation (seed n : ℕ) : List ℕ := drawAll n seed (List.range n)

/-- Test-set size for `test_size=0.2`: sklearn's `_validate_shuffle_split`
computes `n_test = ceil(test_size * n_samples)`; with the exact fraction
1/5 this is `⌈n / 5⌉ = (n + 4) / 5`.  (For every row count reachable in
practice the double-precision product `0.2 * n` rounds to a value with
the same ceiling as the exact `n / 5`.) -/
def n_test_of (n : ℕ) : ℕ := (n + 4) / 5

/-- Test row indices: the first `n_test` entries of the permutation. -/
def test_indices (seed n : ℕ) : List ℕ := (permutation seed n).take (n_test_of n)

/-- Training row indices: the remaining entries of the permutation. -/
def train_indices (seed n : ℕ) : List ℕ := (permutation seed n).drop (n_test_of n)

/-- The seed actually used by the partitioner: the explicit
`random_state` when one is passed (the script passes 42), otherwise
fresh entropy from the process-global generator. -/
def seed_of (random_state : Option ℕ) (entropy : ℕ) : ℕ :=
  match random_state with
  | some s => s
  | none => entropy

/-- `train_test_split(X, y, test_size=0.2, random_state=rs)`: returns
`(X_train, X_test, y_train, y_test)`, the rows of `X` and `y` selected
by the training and test index lists. -/
def train_test_split (X : List (List ℚ)) (y : List ℚ)
    (random_state : Option ℕ) (entropy : ℕ) :
    List (List ℚ) × List (List ℚ) × List ℚ × List ℚ :=
  let n := X.length
  let seed := seed_of random_state entropy
  let tr := train_indices seed n
  let te := test_indices seed n
  (tr.map (fun i => X.getD i []), te.map (fun i => X.getD i []),
   tr.map (fun i => y.getD i 0), te.map (fun i => y.getD i 0))

/-! ## Feature/target splitting (lines 58-59) -/

/-- `X = data.iloc[:, :-1]`: every row with its last entry removed. -/
def featuresOf (data : List (List ℚ)) : List (List ℚ) := data.map List.dropLast

/-- `y = data.iloc[:, -1]`: the last entry of every row. -/
def targetOf (data : List (List ℚ)) : List ℚ := data.map (fun r => r.getLastD 0)

/-! ## Ordinary least squares (`LinearRegression().fit`, lines 69-73).

`LinearRegression` fits an intercept plus one coefficient per feature,
minimising the sum of squared residuals.  This is modelled by the
normal equations `(AᵀA) β = Aᵀy` on the 1-augmented design matrix `A`,
solved exactly by Cramer's rule; `none` models the degenerate
rank-deficient case in which the normal matrix is singular. -/

/-- Dot product of two coefficient lists. -/
def dot (a b : List ℚ) : ℚ := (List.zipWith (· * ·) a b).sum

/-- Design matrix with the intercept column: each row prefixed by 1. -/
def augment1 (X : List (List ℚ)) : List (List ℚ) := X.map (fun r => 1 :: r)

/-- `AᵀA`. -/
def gram (A : List (List ℚ)) : List (List ℚ) :=
  A.transpose.map (fun c => A.transpose.map (fun d => dot c d))

/-- `Aᵀy`. -/
def atb (A : List (List ℚ)) (y : List ℚ) : List ℚ :=
  A.transpose.map (fun c => dot c y)

/-- Remove column `j` from every row. -/
def stripCol (j : ℕ) (M : List (List ℚ)) : List (List ℚ) :=
  M.map (fun r => r.eraseIdx j)

/-- Determinant by Laplace expansion along the first row; `fuel` bounds
the recursion and is instantiated with the matrix dimension. -/
def detFuel : ℕ → List (List ℚ) → ℚ
  | _, [] => 1
  | 0, _ :: _ => 0
  | fuel + 1, r :: rs =>
    ((List.range r.length).map
      (fun j => (-1 : ℚ) ^ j * r.getD j 0 * detFuel fuel (stripCol j rs))).sum

/-- Determinant of a square matrix given as a list of rows. -/
def det (M : List (List ℚ)) : ℚ := detFuel M.length M

/-- Replace column `j` of `M` by the vector `b`. -/
def replaceCol (j : ℕ) (b : List ℚ) (M : List (List ℚ)) : List (List ℚ) :=
  (M.zip b).map (fun rb => rb.1.set j rb.2)

/-- Solve `M x = b` by Cramer's rule; `none` when `M` is singular. -/
def cramer_solve (M : List (List ℚ)) (b : List ℚ) : Option (List ℚ) :=
  let d := det M
  if d = 0 then none
  else some ((List.range M.length).map (fun j => det (replaceCol j b M) / d))

/-- `LinearRegression().fit(X_train, y_train)`: the fitted parameter
vector `intercept :: coefficients`, or `none` in the degenerate
singular case (which the script does not guard against). -/
def linreg_fit (X : List (List ℚ)) (y : List ℚ) : Option (List ℚ) :=
  let A := augment1 X
  cramer_solve (gram A) (atb A y)

/-- `model.predict(X_test)` (line 73): one prediction per test row. -/
def linreg_predict (beta : List ℚ) (X : List (List ℚ)) : List ℚ :=
  X.map (fun r => dot beta (1 :: r))

/-! ## Mean squared error (`mean_squared_error(y_test, y_pred)`, line 76) -/

/-- `sklearn.metrics.mean_squared_error(y_true, y_pred)`: validates
that the two vectors have consistent lengths (`none` models the raised
error on mismatch), then returns the average squared difference. -/
def mean_squared_error (y_true y_pred : List ℚ) : Option ℚ :=
  if y_true.length = y_pred.length then
    some ((((y_true.zip y_pred).map (fun q => (q.1 - q.2) ^ 2)).sum) / y_true.length)
  else none

/-- Modelled from the spec's words for the Evaluator contract: "the
average of (prediction[i] − actual[i])² over all i"; compared against
`mean_squared_error` in the refinement theorem for C7. -/
def mse_spec (actual predicted : List ℚ) : ℚ :=
  (∑ i ∈ Finset.range actual.length,
    (predicted.getD i 0 - actual.getD i 0) ^ 2) / actual.length

/-! ## The pipeline after path resolution (`main`, lines 50-77) -/

/-- Everything the run produces downstream of loading: the partition,
the fitted model, the predictions and the metric. -/
structure RunResult where
  X_train : List (List ℚ)
  X_test : List (List ℚ)
  y_train : List ℚ
  y_test : List ℚ
  model : Option (List ℚ)
  y_pred : Option (List ℚ)
  mse : Option ℚ
deriving DecidableEq

/-- The straight-line pipeline of `main` after the dataset is loaded
(lines 58-77): split columns, partition rows with `random_state=42`,
fit, predict, evaluate.  `entropy` is the process-global randomness
the partitioner would consume if no `random_state` were passed. -/
def pipeline (data : List (List ℚ)) (entropy : ℕ) : RunResult :=
  let X := featuresOf data
  let y := targetOf data
  let s := train_test_split X y (some 42) entropy
  let model := linreg_fit s.1 s.2.2.1
  let y_pred := model.map (fun b => linreg_predict b s.2.1)
  let mse := y_pred.bind (fun ps => mean_squared_error s.2.2.2 ps)
  ⟨s.1, s.2.1, s.2.2.1, s.2.2.2, model, y_pred, mse⟩

/-- A whole run of `main` as a function of the environment, the file
contents (a map from paths to parsed datasets), the command line and
the entropy source: resolve the path (line 47), then run the pipeline
on the file's contents. -/
def runProgram (env : Env) (contents : String → List (List ℚ))
    (argv : List String) (entropy : ℕ) : Except String RunResult :=
  match find_csv_path env (programArg argv) with
  | Except.error e => Except.error e
  | Except.ok p => Except.ok (pipeline (contents p) entropy)

/-- A concrete 5-row, 2-column dataset (`y = 2x + 1` exactly) used to
witness a successful run of the fitted pipeline. -/
def sampleData : List (List ℚ) := [[0, 1], [1, 3], [2, 5], [3, 7], [4, 9]]

/-! ## Lemmas on the shuffle and the partition -/

/-- The selection shuffle permutes its input (given enough fuel). -/
theorem drawAll_perm : ∀ (fuel s : ℕ) (l : List ℕ), l.length ≤ fuel →
    (drawAll fuel s l).Perm l := by
  intro fuel
  induction fuel with
  | zero =>
    intro s l h
    have hl : l = [] := List.length_eq_zero.mp (Nat.le_zero.mp h)
    subst hl
    exact List.Perm.refl _
  | succ m ih =>
    intro s l h
    match l with
    | [] => exact List.Perm.refl _
    | x :: xs =>
      have hpos : 0 < (x :: xs).length := by simp
      have hk : nextRand s % (x :: xs).length < (x :: xs).length := Nat.mod_lt _ hpos
      have ha : (x :: xs).getD (nextRand s % (x :: xs).length) 0 ∈ x :: xs := by
        rw [List.getD_eq_getElem _ _ hk]
        exact List.getElem_mem hk
      have hlen : ((x :: xs).erase ((x :: xs).getD (nextRand s % (x :: xs).length) 0)).length ≤ m := by
        rw [List.length_erase_of_mem ha]
        simp only [List.length_cons] at h ⊢
        omega
      show ((x :: xs).getD (nextRand s % (x :: xs).length) 0 ::
          drawAll m (nextRand s)
            ((x :: xs).erase ((x :: xs).getD (nextRand s % (x :: xs).length) 0))).Perm (x :: xs)
      exact ((ih (nextRand s) _ hlen).cons _).trans (List.perm_cons_erase ha).symm

/-- The seeded shuffle of the row indices is a permutation of `[0, n)`. -/
theorem permutation_perm_range (seed n : ℕ) :
    (permutation seed n).Perm (List.range n) := by
  have h := drawAll_perm n seed (List.range n) (by simp)
  simpa [permutation] using h

theorem permutation_length (seed n : ℕ) : (permutation seed n).length = n := by
  simpa using (permutation_perm_range seed n).length_eq

theorem permutation_nodup (seed n : ℕ) : (permutation seed n).Nodup :=
  (permutation_perm_range seed n).nodup_iff.mpr (List.nodup_range n)

theorem n_test_of_le (n : ℕ) : n_test_of n ≤ n := by
  unfold n_test_of
  omega

theorem test_indices_length (seed n : ℕ) :
    (test_indices seed n).length = n_test_of n := by
  rw [test_indices, List.length_take, permutation_length]
  exact Nat.min_eq_left (n_test_of_le n)

theorem train_indices_length (seed n : ℕ) :
    (train_indices seed n).length = n - n_test_of n := by
  rw [train_indices, List.length_drop, permutation_length]

theorem test_append_train (seed n : ℕ) :
    test_indices seed n ++ train_indices seed n = permutation seed n :=
  List.take_append_drop _ _

/-- `(n + 4) / 5` is exactly `⌈n / 5⌉` on the rationals. -/
theorem ceil_fifth (n : ℕ) :
    Int.ceil ((1 / 5 : ℚ) * n) = (((n + 4) / 5 : ℕ) : ℤ) := by
  have h5 : (0 : ℚ) < 5 := by norm_num
  set q : ℕ := (n + 4) / 5 with hq
  have hub : n ≤ 5 * q := by omega
  have hlb : 5 * q < n + 5 := by omega
  have hubQ : (n : ℚ) ≤ 5 * q := by exact_mod_cast hub
  have hlbQ : (5 : ℚ) * q < n + 5 := by exact_mod_cast hlb
  rw [Int.ceil_eq_iff]
  refine ⟨?_, ?_⟩
  · push_cast
    rw [show ((1 : ℚ) / 5) * n = n / 5 by ring, lt_div_iff₀ h5]
    linarith
  · push_cast
    rw [show ((1 : ℚ) / 5) * n = n / 5 by ring, div_le_iff₀ h5]
    linarith

/-! ## Claim C1 (corrected) -/

/-- C1 counterexample: for a dataset of 7 rows the partitioner puts
`ceil(0.2 * 7) = 2` rows in the test group, but `round(0.2 * 7) = 1`,
so the test-group size is not `round(0.2 * n)` for every `n`. -/
theorem c1_round_counterexample :
    (train_test_split (List.replicate 7 ([0] : List ℚ)) (List.replicate 7 (0 : ℚ))
        (some 42) 0).2.1.length = 2 ∧
    round ((1 / 5 : ℚ) * 7) = (1 : ℤ) ∧
    ¬ (((train_test_split (List.replicate 7 ([0] : List ℚ)) (List.replicate 7 (0 : ℚ))
        (some 42) 0).2.1.length : ℤ) = round ((1 / 5 : ℚ) * 7)) := by
  have h2 : (train_test_split (List.replicate 7 ([0] : List ℚ)) (List.replicate 7 (0 : ℚ))
      (some 42) 0).2.1.length = 2 := by decide
  have h1 : round ((1 / 5 : ℚ) * 7) = (1 : ℤ) := by
    rw [round_eq]
    norm_num
  refine ⟨h2, h1, ?_⟩
  rw [h2, h1]
  decide

/-- C1 (amended): for every dataset of `n` rows with test fraction 0.2
the test group has `⌈0.2 * n⌉` rows (sklearn's ceiling convention), not
`round(0.2 * n)`; in particular for 500 rows, `X_train`/`y_train` have
400 rows and `X_test`/`y_test` have 100 rows. -/
theorem c1_test_group_size (X : List (List ℚ)) (y : List ℚ) (seed entropy : ℕ) :
    (((train_test_split X y (some seed) entropy).2.1.length : ℤ)
        = Int.ceil ((1 / 5 : ℚ) * X.length)) ∧
    (X.length = 500 →
      (train_test_split X y (some seed) entropy).1.length = 400 ∧
      (train_test_split X y (some seed) entropy).2.1.length = 100 ∧
      (train_test_split X y (some seed) entropy).2.2.1.length = 400 ∧
      (train_test_split X y (some seed) entropy).2.2.2.length = 100) := by
  have hTest : (train_test_split X y (some seed) entropy).2.1.length
      = n_test_of X.length := by
    simp [train_test_split, test_indices_length]
  have hTrain : (train_test_split X y (some seed) entropy).1.length
      = X.length - n_test_of X.length := by
    simp [train_test_split, train_indices_length]
  have hTrainY : (train_test_split X y (some seed) entropy).2.2.1.length
      = X.length - n_test_of X.length := by
    simp [train_test_split, train_indices_length]
  have hTestY : (train_test_split X y (some seed) entropy).2.2.2.length
      = n_test_of X.length := by
    simp [train_test_split, test_indices_length]
  refine ⟨?_, fun h500 => ?_⟩
  · rw [hTest, n_test_of, ceil_fifth]
  · rw [hTest, hTrain, hTrainY, hTestY, h500]
    refine ⟨rfl, rfl, rfl, rfl⟩

/-- C1 witness: the amended theorem applied to a concrete 500-row
dataset. -/
theorem c1_test_group_size_witness :
    (train_test_split (List.replicate 500 ([0] : List ℚ)) (List.replicate 500 (0 : ℚ))
        (some 42) 0).1.length = 400 ∧
    (train_test_split (List.replicate 500 ([0] : List ℚ)) (List.replicate 500 (0 : ℚ))
        (some 42) 0).2.1.length = 100 ∧
    (train_test_split (List.replicate 500 ([0] : List ℚ)) (List.replicate 500 (0 : ℚ))
        (some 42) 0).2.2.1.length = 400 ∧
    (train_test_split (List.replicate 500 ([0] : List ℚ)) (List.replicate 500 (0 : ℚ))
        (some 42) 0).2.2.2.length = 100 :=
  (c1_test_group_size (List.replicate 500 ([0] : List ℚ)) (List.replicate 500 (0 : ℚ))
    42 0).2 (by rw [List.length_replicate])

/-! ## Claim C2 (confirmed) -/

/-- C2: for every dataset of `n` rows the partition is exact: the
train and test index lists have lengths summing to `n`, together they
are a permutation of `[0, n)` (so every row index appears exactly
once), and they are disjoint. -/
theorem c2_partition_exact (seed n : ℕ) :
    (train_indices seed n).length + (test_indices seed n).length = n ∧
    (test_indices seed n ++ train_indices seed n).Perm (List.range n) ∧
    ∀ i, i ∈ train_indices seed n → i ∉ test_indices seed n := by
  refine ⟨?_, ?_, ?_⟩
  · rw [train_indices_length, test_indices_length]
    have := n_test_of_le n
    omega
  · rw [test_append_train]
    exact permutation_perm_range seed n
  · have hnd : (test_indices seed n ++ train_indices seed n).Nodup := by
      rw [test_append_train]
      exact permutation_nodup seed n
    rw [List.nodup_append] at hnd
    intro i hi hmem
    exact hnd.2.2 hmem hi

/-- C2 witness: the partition theorem at `seed = 42`, `n = 5`, with
index 0 (a concrete member of the training group). -/
theorem c2_partition_exact_witness :
    (train_indices 42 5).length + (test_indices 42 5).length = 5 ∧
    (0 : ℕ) ∉ test_indices 42 5 :=
  ⟨(c2_partition_exact 42 5).1, (c2_partition_exact 42 5).2.2 0 (by decide)⟩

/-! ## Claim C3 (confirmed) -/

/-- C3: the pipeline after path resolution is a deterministic function
of the dataset: with `random_state = 42` the partition, and therefore
the fitted model and the metric, do not depend on the process-global
entropy, so two runs on identical input are identical. -/
theorem c3_pipeline_deterministic (data : List (List ℚ)) (e₁ e₂ : ℕ) :
    (pipeline data e₁).X_train = (pipeline data e₂).X_train ∧
    (pipeline data e₁).X_test = (pipeline data e₂).X_test ∧
    (pipeline data e₁).y_train = (pipeline data e₂).y_train ∧
    (pipeline data e₁).y_test = (pipeline data e₂).y_test ∧
    (pipeline data e₁).model = (pipeline data e₂).model ∧
    (pipeline data e₁).mse = (pipeline data e₂).mse ∧
    pipeline data e₁ = pipeline data e₂ :=
  ⟨rfl, rfl, rfl, rfl, rfl, rfl, rfl⟩

/-! ## Lemmas on the column split -/

/-- A nonempty row is its leading entries followed by its last entry. -/
theorem dropLast_append_getLastD (l : List ℚ) (h : l ≠ []) :
    l.dropLast ++ [l.getLastD 0] = l := by
  induction l with
  | nil => exact absurd rfl h
  | cons a t ih =>
    cases t with
    | nil => rfl
    | cons b t' =>
      have h2 : (b :: t').dropLast ++ [(b :: t').getLastD 0] = b :: t' := ih (by simp)
      calc (a :: b :: t').dropLast ++ [(a :: b :: t').getLastD 0]
          = a :: ((b :: t').dropLast ++ [(b :: t').getLastD 0]) := by
            simp [List.getLastD_cons]
        _ = a :: b :: t' := by rw [h2]

theorem featuresOf_getD (data : List (List ℚ)) (i : ℕ) (h : i < data.length) :
    (featuresOf data).getD i [] = (data.getD i []).dropLast := by
  rw [featuresOf, List.getD_eq_getElem _ _ (by simpa using h), List.getD_eq_getElem _ _ h]
  simp

theorem targetOf_getD (data : List (List ℚ)) (i : ℕ) (h : i < data.length) :
    (targetOf data).getD i 0 = (data.getD i []).getLastD 0 := by
  rw [targetOf, List.getD_eq_getElem _ _ (by simpa using h), List.getD_eq_getElem _ _ h]
  simp

/-! ## Claim C4 (confirmed) -/

/-- C4: for a dataset whose rows all have `m ≥ 2` entries, the
splitter keeps the row counts, every feature row has `m - 1` entries,
and row by row `X` is the leading entries and `y` the last entry of
the dataset row, in order: `X[i] ++ [y[i]] = data[i]`. -/
theorem c4_feature_target_split (data : List (List ℚ)) (m : ℕ)
    (hcols : ∀ r ∈ data, r.length = m) (hm : 2 ≤ m) :
    (featuresOf data).length = data.length ∧
    (targetOf data).length = data.length ∧
    (∀ r ∈ featuresOf data, r.length = m - 1) ∧
    (∀ i, i < data.length →
      (featuresOf data).getD i [] = (data.getD i []).dropLast ∧
      (targetOf data).getD i 0 = (data.getD i []).getLastD 0 ∧
      (featuresOf data).getD i [] ++ [(targetOf data).getD i 0] = data.getD i []) := by
  refine ⟨by simp [featuresOf], by simp [targetOf], ?_, ?_⟩
  · intro r hr
    rw [featuresOf] at hr
    obtain ⟨orig, ho, rfl⟩ := List.mem_map.mp hr
    rw [List.length_dropLast, hcols orig ho]
  · intro i hi
    have hmem : data.getD i [] ∈ data := by
      rw [List.getD_eq_getElem _ _ hi]
      exact List.getElem_mem hi
    have hne : data.getD i [] ≠ [] := by
      intro hnil
      have := hcols _ hmem
      rw [hnil] at this
      simp at this
      omega
    refine ⟨featuresOf_getD data i hi, targetOf_getD data i hi, ?_⟩
    rw [featuresOf_getD data i hi, targetOf_getD data i hi]
    exact dropLast_append_getLastD _ hne

/-- C4 witness: the splitter theorem at the concrete 2 × 2 dataset
`[[1, 2], [3, 4]]`, row 0. -/
theorem c4_feature_target_split_witness :
    (featuresOf [[(1 : ℚ), 2], [3, 4]]).length = ([[(1 : ℚ), 2], [3, 4]] : List (List ℚ)).length ∧
    (featuresOf [[(1 : ℚ), 2], [3, 4]]).getD 0 [] ++ [(targetOf [[(1 : ℚ), 2], [3, 4]]).getD 0 0]
      = ([[(1 : ℚ), 2], [3, 4]] : List (List ℚ)).getD 0 [] :=
  ⟨(c4_feature_target_split [[(1 : ℚ), 2], [3, 4]] 2 (by decide) (by decide)).1,
   ((c4_feature_target_split [[(1 : ℚ), 2], [3, 4]] 2 (by decide) (by decide)).2.2.2 0
      (by decide)).2.2⟩

/-! ## Claim C5 (confirmed) -/

/-- C5: resolution priority.  A supplied (truthy) candidate whose
resolution against the working directory exists is returned
immediately; otherwise the script-directory candidate and then the
working-directory candidate are probed in that order; in particular,
with no argument, `housing.csv` present in the working directory and
absent next to the script, the working-directory path is returned. -/
theorem c5_path_resolution_priority (env : Env) :
    (∀ s, s ≠ "" → env.pathExists (resolved_candidate env s) = true →
      find_csv_path env (some s) = Except.ok (resolved_candidate env s)) ∧
    (∀ arg : Option String,
      (∀ s, arg = some s → s ≠ "" → env.pathExists (resolved_candidate env s) = false) →
      find_csv_path env arg =
        (if env.pathExists (script_candidate env) then Except.ok (script_candidate env)
         else if env.pathExists (cwd_candidate env) then Except.ok (cwd_candidate env)
         else Except.error (not_found_message env))) ∧
    (env.pathExists (script_candidate env) = false →
      env.pathExists (cwd_candidate env) = true →
      find_csv_path env none = Except.ok (cwd_candidate env)) := by
  refine ⟨?_, ?_, ?_⟩
  · intro s hs hex
    simp [find_csv_path, hs, hex]
  · intro arg harg
    cases arg with
    | none => rfl
    | some s =>
      by_cases hs : s = ""
      · subst hs
        simp [find_csv_path]
      · have hnotex := harg s rfl hs
        simp [find_csv_path, hs, hnotex]
  · intro h0 h1
    simp [find_csv_path, h0, h1]

/-- C5 witness: the no-argument scenario in a concrete environment
where only the working-directory copy exists. -/
theorem c5_path_resolution_priority_witness :
    find_csv_path ⟨"/app", "/work", fun p => p == "/work/housing.csv"⟩ none
      = Except.ok (cwd_candidate ⟨"/app", "/work", fun p => p == "/work/housing.csv"⟩) :=
  (c5_path_resolution_priority ⟨"/app", "/work", fun p => p == "/work/housing.csv"⟩).2.2
    (by decide) (by decide)

/-! ## Claim C6 (confirmed) -/

/-- C6: when neither the supplied candidate nor either fallback
location exists, resolution fails with an error that lists exactly the
two fallback locations (script directory and working directory, each
joined with `housing.csv`) plus the example invocation. -/
theorem c6_not_found_error (env : Env) (arg : Option String)
    (harg : ∀ s, arg = some s → env.pathExists (resolved_candidate env s) = false)
    (h0 : env.pathExists (script_candidate env) = false)
    (h1 : env.pathExists (cwd_candidate env) = false) :
    find_csv_path env arg = Except.error
      ("Could not find 'housing.csv'. Searched the following locations:\n" ++
       " - next to the script: " ++ script_candidate env ++ "\n" ++
       " - current working directory: " ++ cwd_candidate env ++ "\n" ++
       "Provide the full path as the first argument when running the script, e.g.:\n" ++
       "  python house_price.py C:\\path\\to\\housing.csv") := by
  have hmsg : not_found_message env =
      "Could not find 'housing.csv'. Searched the following locations:\n" ++
      " - next to the script: " ++ script_candidate env ++ "\n" ++
      " - current working directory: " ++ cwd_candidate env ++ "\n" ++
      "Provide the full path as the first argument when running the script, e.g.:\n" ++
      "  python house_price.py C:\\path\\to\\housing.csv" := rfl
  rw [← hmsg]
  cases arg with
  | none => simp [find_csv_path, h0, h1]
  | some s =>
    by_cases hs : s = ""
    · subst hs
      simp [find_csv_path, h0, h1]
    · have hnotex := harg s rfl
      simp [find_csv_path, hs, hnotex, h0, h1]

/-- C6 witness: a concrete environment with an empty filesystem and an
explicit absolute candidate path. -/
theorem c6_not_found_error_witness :
    find_csv_path ⟨"/app", "/work", fun _ => false⟩ (some "/no/such/file.csv")
      = Except.error
        ("Could not find 'housing.csv'. Searched the following locations:\n" ++
         " - next to the script: " ++ script_candidate ⟨"/app", "/work", fun _ => false⟩ ++ "\n" ++
         " - current working directory: " ++ cwd_candidate ⟨"/app", "/work", fun _ => false⟩ ++ "\n" ++
         "Provide the full path as the first argument when running the script, e.g.:\n" ++
         "  python house_price.py C:\\path\\to\\housing.csv") :=
  c6_not_found_error ⟨"/app", "/work", fun _ => false⟩ (some "/no/such/file.csv")
    (fun _ _ => rfl) rfl rfl

/-! ## Lemmas on the metric -/

/-- The zipped sum of squared differences as a `Finset.range` sum. -/
theorem zip_sq_sum (y p : List ℚ) (h : y.length = p.length) :
    ((y.zip p).map (fun q => (q.1 - q.2) ^ 2)).sum
      = ∑ i ∈ Finset.range y.length, (p.getD i 0 - y.getD i 0) ^ 2 := by
  induction y generalizing p with
  | nil => simp
  | cons a ys ih =>
    cases p with
    | nil => simp at h
    | cons b ps =>
      have h' : ys.length = ps.length := by simpa using h
      simp only [List.zip_cons_cons, List.map_cons, List.sum_cons, List.length_cons]
      rw [Finset.sum_range_succ']
      simp only [List.getD_cons_succ, List.getD_cons_zero]
      rw [ih ps h']
      ring

/-! ## Claim C7 (confirmed) -/

/-- C7: on equal-length vectors the evaluator computes exactly the
spec's mean squared error: the average over all `i` of
`(prediction[i] − actual[i])²`. -/
theorem c7_mse_refines_spec (y_test y_pred : List ℚ)
    (h : y_test.length = y_pred.length) :
    mean_squared_error y_test y_pred = some (mse_spec y_test y_pred) := by
  rw [mean_squared_error, if_pos h, mse_spec, zip_sq_sum y_test y_pred h]

/-- C7 witness: the refinement theorem at two concrete vectors. -/
theorem c7_mse_refines_spec_witness :
    mean_squared_error [1, 2] [3, 2] = some (mse_spec [1, 2] [3, 2]) :=
  c7_mse_refines_spec [1, 2] [3, 2] rfl

/-! ## Claim C8 (confirmed) -/

/-- C8: the mean squared error of equal-length vectors is nonnegative,
and it is zero exactly when every prediction equals the corresponding
actual value. -/
theorem c8_mse_nonneg_zero_iff (y p : List ℚ) (h : y.length = p.length) (v : ℚ)
    (hv : mean_squared_error y p = some v) :
    0 ≤ v ∧ (v = 0 ↔ ∀ i, i < y.length → p.getD i 0 = y.getD i 0) := by
  rw [mean_squared_error, if_pos h, Option.some.injEq, zip_sq_sum y p h] at hv
  subst hv
  constructor
  · exact div_nonneg (Finset.sum_nonneg fun i _ => sq_nonneg _) (Nat.cast_nonneg _)
  · rw [div_eq_zero_iff]
    constructor
    · rintro (hsum | hlen0)
      · intro i hi
        have hterm := (Finset.sum_eq_zero_iff_of_nonneg
          (fun j _ => sq_nonneg (p.getD j 0 - y.getD j 0))).mp hsum i (Finset.mem_range.mpr hi)
        exact sub_eq_zero.mp (sq_eq_zero_iff.mp hterm)
      · intro i hi
        have : y.length = 0 := Nat.cast_eq_zero.mp hlen0
        omega
    · intro hall
      left
      apply Finset.sum_eq_zero
      intro i hi
      rw [hall i (Finset.mem_range.mp hi)]
      ring

/-- C8 witness: the theorem at `y = p = [1, 2]`, where the metric is 0. -/
theorem c8_mse_nonneg_zero_iff_witness :
    0 ≤ (0 : ℚ) ∧ ((0 : ℚ) = 0 ↔ ∀ i, i < ([1, 2] : List ℚ).length →
      ([1, 2] : List ℚ).getD i 0 = ([1, 2] : List ℚ).getD i 0) :=
  c8_mse_nonneg_zero_iff [1, 2] [1, 2] rfl 0 (by simp [mean_squared_error])

/-! ## Lemmas on the pipeline -/

theorem pipeline_y_test_length (data : List (List ℚ)) (e : ℕ) :
    (pipeline data e).y_test.length = n_test_of data.length := by
  simp [pipeline, train_test_split, test_indices_length, featuresOf]

theorem pipeline_y_pred_length (data : List (List ℚ)) (e : ℕ) (ps : List ℚ)
    (h : (pipeline data e).y_pred = some ps) : ps.length = n_test_of data.length := by
  simp only [pipeline] at h
  rw [Option.map_eq_some'] at h
  obtain ⟨b, hb, hps⟩ := h
  rw [← hps]
  simp [linreg_predict, train_test_split, test_indices_length, featuresOf]

/-! ## Claim C9 (confirmed) -/

/-- C9: whenever the pipeline produces a prediction vector it has the
same length as the test targets, so the evaluator's length check
passes and the run's metric is the evaluator's value on them. -/
theorem c9_predictions_aligned (data : List (List ℚ)) (entropy : ℕ) (ps : List ℚ)
    (h : (pipeline data entropy).y_pred = some ps) :
    ps.length = (pipeline data entropy).y_test.length ∧
    (mean_squared_error (pipeline data entropy).y_test ps).isSome = true ∧
    (pipeline data entropy).mse = mean_squared_error (pipeline data entropy).y_test ps := by
  have h1 : ps.length = (pipeline data entropy).y_test.length := by
    rw [pipeline_y_pred_length data entropy ps h, pipeline_y_test_length]
  refine ⟨h1, ?_, ?_⟩
  · rw [mean_squared_error, if_pos h1.symm]
    rfl
  · have hb : (pipeline data entropy).mse
        = (pipeline data entropy).y_pred.bind
            (fun qs => mean_squared_error (pipeline data entropy).y_test qs) := rfl
    rw [hb, h]
    rfl

/-- On the sample dataset the fit succeeds with intercept 1 and
coefficient 2, the exact line through the data. -/
theorem sample_fit : linreg_fit [[(0 : ℚ)], [4], [1], [2]] [1, 9, 3, 5] = some [1, 2] := by
  have htA : (augment1 [[(0 : ℚ)], [4], [1], [2]]).transpose
      = [[1, 1, 1, 1], [0, 4, 1, 2]] := by decide
  have hgram : gram (augment1 [[(0 : ℚ)], [4], [1], [2]]) = [[4, 7], [7, 21]] := by
    rw [gram, htA]
    norm_num [dot]
  have hatb : atb (augment1 [[(0 : ℚ)], [4], [1], [2]]) [1, 9, 3, 5] = [18, 49] := by
    rw [atb, htA]
    norm_num [dot]
  have hcr : cramer_solve [[(4 : ℚ), 7], [7, 21]] [18, 49] = some [1, 2] := by
    simp only [cramer_solve]
    norm_num [det, detFuel, stripCol, replaceCol, List.range_succ, List.range_zero]
  simp only [linreg_fit]
  rw [hgram, hatb, hcr]

/-- The sample run predicts exactly `[7]` for its single test row. -/
theorem sample_y_pred : (pipeline sampleData 0).y_pred = some [7] := by
  have hsplit : train_test_split (featuresOf sampleData) (targetOf sampleData) (some 42) 0
      = ([[(0 : ℚ)], [4], [1], [2]], [[3]], [1, 9, 3, 5], [7]) := by decide
  have hproj : (pipeline sampleData 0).y_pred
      = (linreg_fit (train_test_split (featuresOf sampleData) (targetOf sampleData) (some 42) 0).1
          (train_test_split (featuresOf sampleData) (targetOf sampleData) (some 42) 0).2.2.1).map
          (fun b => linreg_predict b
            (train_test_split (featuresOf sampleData) (targetOf sampleData) (some 42) 0).2.1) := rfl
  rw [hproj, hsplit]
  rw [show (([[(0 : ℚ)], [4], [1], [2]], [[(3 : ℚ)]], ([1, 9, 3, 5] : List ℚ),
    ([7] : List ℚ))).1 = [[(0 : ℚ)], [4], [1], [2]] from rfl]
  simp only []
  rw [sample_fit]
  norm_num [linreg_predict, dot]

/-- C9 witness: the alignment theorem at the concrete 5-row sample
dataset, on which the fit succeeds and predicts `[7]` for the single
test row. -/
theorem c9_predictions_aligned_witness :
    ([7] : List ℚ).length = (pipeline sampleData 0).y_test.length ∧
    (mean_squared_error (pipeline sampleData 0).y_test ([7] : List ℚ)).isSome = true ∧
    (pipeline sampleData 0).mse
      = mean_squared_error (pipeline sampleData 0).y_test ([7] : List ℚ) :=
  c9_predictions_aligned sampleData 0 [7] sample_y_pred

/-! ## Claim C10 (confirmed) -/

/-- C10: only `argv[1]` influences the run.  Two command lines that
agree on their first positional argument (in particular, one extending
the other with extra arguments) resolve the same path and produce the
same result; extra arguments are ignored, never rejected. -/
theorem c10_only_first_arg (env : Env) (contents : String → List (List ℚ))
    (argv₁ argv₂ : List String) (entropy : ℕ) (h : argv₁[1]? = argv₂[1]?) :
    runProgram env contents argv₁ entropy = runProgram env contents argv₂ entropy := by
  unfold runProgram programArg
  rw [h]

/-- C10 witness: a run with two extra trailing arguments equals the
run without them. -/
theorem c10_only_first_arg_witness :
    runProgram ⟨"/app", "/work", fun _ => false⟩ (fun _ => []) ["prog", "data.csv"] 0
      = runProgram ⟨"/app", "/work", fun _ => false⟩ (fun _ => [])
          ["prog", "data.csv", "extra", "args"] 0 :=
  c10_only_first_arg ⟨"/app", "/work", fun _ => false⟩ (fun _ => [])
    ["prog", "data.csv"] ["prog", "data.csv", "extra", "args"] 0 rfl

end HousePrice
